import Mathlib

/-!
Shallow embedding of the risk-metrics pipeline of `risk/metrics.py`:
daily returns, rolling volatility, the drawdown series, major-drawdown
detection, recovery analysis, and the max-drawdown aggregate metric.

Modelling conventions: dates are integer day numbers, closing prices are
rationals.  A pandas DataFrame column that may be absent is modelled by a
Boolean presence flag; a float NaN entry is modelled by `Option`.  The two
third-party calls the source makes (`ffn.to_drawdown_series` and
`qs.stats.max_drawdown`) are modelled from the published implementations of
those libraries; each model's doc comment states the formula used.
-/

/-- One row of the price table: a date (day number) and a closing price. -/
structure Row where
  date : ℤ
  close : ℚ
deriving Repr, DecidableEq

/-- A price DataFrame: presence flags for the Date and Close columns, and rows. -/
structure Frame where
  hasDate : Bool
  hasClose : Bool
  rows : List Row
deriving Repr, DecidableEq

/-- Closing price at index `i` (`df.loc[i, "Close"]`); 0 out of range. -/
def closeAt (rows : List Row) (i : ℕ) : ℚ := (rows.getD i ⟨0, 0⟩).close

/-- Date at index `i` (`df.loc[i, "Date"]`); 0 out of range. -/
def dateAt (rows : List Row) (i : ℕ) : ℤ := (rows.getD i ⟨0, 0⟩).date

/-- pandas `Series.pct_change`: first entry NaN, then `p[i] / p[i-1] - 1`. -/
def pct_change : List ℚ → List (Option ℚ)
  | [] => []
  | x :: xs => none :: List.zipWith (fun prev cur => some (cur / prev - 1)) (x :: xs) xs

/-- `calculate_returns`: fails when the Close column is missing, otherwise the
new `Daily_Return` column (the rest of the frame passes through unchanged). -/
def calculate_returns (hasClose : Bool) (closes : List ℚ) :
    Except String (List (Option ℚ)) :=
  if hasClose = false then .error "DataFrame must contain Close column."
  else .ok (pct_change closes)

/-- Sample variance with the n-1 denominator, in the sum-of-squares form a
rolling-window implementation accumulates. -/
def sampleVar (xs : List ℚ) : ℚ :=
  ((xs.map fun x => x * x).sum - xs.sum * xs.sum / (xs.length : ℚ)) / ((xs.length : ℚ) - 1)

/-- Sample standard deviation of a window of returns. -/
noncomputable def sampleStd (xs : List ℚ) : ℝ :=
  Real.sqrt ((sampleVar xs : ℚ) : ℝ)

/-- pandas `Series.rolling(window=w).std()`: entry `t` is defined only when the
window `[t-w+1, t]` is complete (so `t ≥ w-1`) and has no undefined entry
(the default `min_periods` equals the window length). -/
noncomputable def rollingStd (rets : List (Option ℚ)) (w : ℕ) : List (Option ℝ) :=
  (List.range rets.length).map fun t =>
    if t + 1 < w then none
    else
      let win := (rets.drop (t + 1 - w)).take w
      if win.all Option.isSome then some (sampleStd (win.filterMap id)) else none

/-- One annualized rolling-volatility column: `rolling std * sqrt(252) * 100`. -/
noncomputable def volColumn (rets : List (Option ℚ)) (w : ℕ) : List (Option ℝ) :=
  (rollingStd rets w).map (Option.map fun s => s * Real.sqrt 252 * 100)

/-- `calculate_volatility`: fails when the Daily_Return column is missing,
otherwise one volatility column per window in `(30, 60, 252)`. -/
noncomputable def calculate_volatility (hasReturn : Bool) (rets : List (Option ℚ)) :
    Except String (List (ℕ × List (Option ℝ))) :=
  if hasReturn = false then .error "DataFrame must contain Daily_Return column."
  else .ok ([30, 60, 252].map fun w => (w, volColumn rets w))

/-- Running-maximum scan with accumulator `a`, the recurrence behind both
pandas `expanding().max()` and numpy `maximum.accumulate`. -/
def scanMax (a : ℚ) : List ℚ → List ℚ
  | [] => []
  | x :: xs => max a x :: scanMax (max a x) xs

/-- pandas `expanding().max()`. -/
def runningMaxList : List ℚ → List ℚ
  | [] => []
  | x :: xs => x :: scanMax x xs

/-- Running-minimum scan with accumulator `a`. -/
def scanMin (a : ℚ) : List ℚ → List ℚ
  | [] => []
  | x :: xs => min a x :: scanMin (min a x) xs

/-- pandas `expanding().min()`. -/
def runningMinList : List ℚ → List ℚ
  | [] => []
  | x :: xs => x :: scanMin x xs

/-- ffn `to_drawdown_series` on a series without NaNs: the price divided by its
running maximum, minus 1 (`drawdown / roll_max - 1.0` after
`roll_max = np.maximum.accumulate(drawdown)`). -/
def to_drawdown_series (c : List ℚ) : List ℚ :=
  List.zipWith (fun p m => p / m - 1) c (runningMaxList c)

/-- `calculate_drawdown`: the Drawdown (percent), Running_Max and Max_Drawdown
columns added to the frame. -/
def calculate_drawdown (df : Frame) :
    Except String (List ℚ × List ℚ × List ℚ) :=
  if df.hasDate = false ∨ df.hasClose = false then
    .error "DataFrame must contain Date and Close columns."
  else
    let c := df.rows.map Row.close
    let dd := (to_drawdown_series c).map (· * 100)
    .ok (dd, runningMaxList c, runningMinList dd)

/-- A detected major-drawdown episode, the record built by
`_calculate_drawdown_metrics`. -/
structure Episode where
  Peak_Date : ℤ
  Trough_Date : ℤ
  Peak_Price : ℚ
  Trough_Price : ℚ
  Drawdown_Pct : ℚ
  Duration_Days : ℤ
deriving Repr, DecidableEq

/-- pandas `idxmin` over the inclusive index window `[lo, hi]`: the first index
holding the minimal closing price. -/
def idxminClose (rows : List Row) (lo hi : ℕ) : ℕ :=
  (List.range' (lo + 1) (hi - lo)).foldl
    (fun best k => if closeAt rows k < closeAt rows best then k else best) lo

/-- `_calculate_drawdown_metrics`: the episode record of the window
`[start, endI]`, or `none` when the drawdown magnitude stays below the
threshold. -/
def calculate_drawdown_metrics (rows : List Row) (start endI : ℕ) (th : ℚ) :
    Option Episode :=
  let t := idxminClose rows start endI
  let troughPrice := closeAt rows t
  let ddPct := (troughPrice - closeAt rows start) / closeAt rows start * 100
  if |ddPct| < th then none
  else some
    { Peak_Date := dateAt rows start
      Trough_Date := dateAt rows t
      Peak_Price := closeAt rows start
      Trough_Price := troughPrice
      Drawdown_Pct := ddPct
      Duration_Days := dateAt rows t - dateAt rows start }

/-- The mutable state of the detector loop in `find_major_drawdowns`. -/
structure DDState where
  peakIdx : ℕ
  peakPrice : ℚ
  inDD : Bool
  ddStart : Option ℕ
  recs : List Episode
deriving Repr, DecidableEq

/-- One iteration of the detector loop body at index `i`. -/
def ddStep (rows : List Row) (th : ℚ) (s : DDState) (i : ℕ) : DDState :=
  let price := closeAt rows i
  if s.peakPrice < price then
    let recs :=
      if s.inDD then
        match s.ddStart with
        | some j =>
          match calculate_drawdown_metrics rows j i th with
          | some m => s.recs ++ [m]
          | none => s.recs
        | none => s.recs
      else s.recs
    { peakIdx := i, peakPrice := price, inDD := false, ddStart := s.ddStart, recs := recs }
  else if s.inDD = false ∧ price < s.peakPrice * (19 / 20) then
    { s with inDD := true, ddStart := some s.peakIdx }
  else s

/-- The detector state before the loop starts. -/
def ddInit (rows : List Row) : DDState :=
  { peakIdx := 0, peakPrice := closeAt rows 0, inDD := false, ddStart := none, recs := [] }

/-- The detector loop from index `i`, running `fuel` iterations. -/
def ddScan (rows : List Row) (th : ℚ) : ℕ → ℕ → DDState → DDState
  | 0, _, s => s
  | fuel + 1, i, s => ddScan rows th fuel (i + 1) (ddStep rows th s i)

/-- The detector state after the loop over indices `1 .. len-1`. -/
def ddFinal (rows : List Row) (th : ℚ) : DDState :=
  ddScan rows th (rows.length - 1) 1 (ddInit rows)

/-- `find_major_drawdowns`. -/
def find_major_drawdowns (df : Frame) (th : ℚ) : Except String (List Episode) :=
  if df.hasDate = false ∨ df.hasClose = false then
    .error "DataFrame must contain Date and Close columns."
  else if th ≤ 0 then .error "threshold must be positive."
  else if df.rows.isEmpty then .ok []
  else .ok (ddFinal df.rows th).recs

/-- A recovery record, the dictionary built inside `calculate_recovery`. -/
structure RecoveryRecord where
  Drawdown_Pct : ℚ
  Drawdown_Duration_Days : ℤ
  Recovery_Days : ℤ
  Recovery_Months : ℚ
  Trough_Date : ℤ
  Recovery_Date : ℤ
deriving Repr, DecidableEq

/-- Python `round(x, 1)`: round to one decimal place. -/
def round1 (x : ℚ) : ℚ := ((round (x * 10) : ℤ) : ℚ) / 10

/-- The contribution of one episode inside `calculate_recovery`: the first row
strictly after the trough date whose close regains the peak price, if any
(`30.44 = 761 / 25` days per month). -/
def recoveryFor (rows : List Row) (e : Episode) : Option RecoveryRecord :=
  match ((rows.filter fun r => decide (e.Trough_Date < r.date)).filter
      fun r => decide (e.Peak_Price ≤ r.close)).head? with
  | none => none
  | some r => some
      { Drawdown_Pct := e.Drawdown_Pct
        Drawdown_Duration_Days := e.Duration_Days
        Recovery_Days := r.date - e.Trough_Date
        Recovery_Months := round1 (((r.date - e.Trough_Date : ℤ) : ℚ) / (761 / 25))
        Trough_Date := e.Trough_Date
        Recovery_Date := r.date }

/-- `calculate_recovery`: every episode's recovery record, episodes without a
recovery silently omitted. -/
def calculate_recovery (rows : List Row) (eps : List Episode) : List RecoveryRecord :=
  eps.filterMap (recoveryFor rows)

/-- Cumulative-product scan with accumulator `a` (pandas `cumprod`). -/
def cumprod (a : ℚ) : List ℚ → List ℚ
  | [] => []
  | x :: xs => a * x :: cumprod (a * x) xs

/-- quantstats `utils.to_prices` with base 1: NaNs become 0 and the series is
compounded into the price index `cumprod(1 + r)`. -/
def qs_to_prices (rets : List (Option ℚ)) : List ℚ :=
  cumprod 1 (rets.map fun o => 1 + o.getD 0)

/-- Running maximum over an Option series, skipping undefined entries, as
pandas `expanding(min_periods=0).max()` behaves on a series with NaNs. -/
def scanMaxO (a : Option ℚ) : List (Option ℚ) → List (Option ℚ)
  | [] => []
  | x :: xs =>
    let m := match a, x with
      | some u, some v => some (max u v)
      | some u, none => some u
      | none, v => v
    m :: scanMaxO m xs

/-- The returns-recognition test of the Series branch of quantstats
`utils._prepare_prices`: the series looks like returns when its minimum is
negative or its maximum is below 1, NaNs dropped for the test. -/
def qs_isReturns (rets : List (Option ℚ)) : Bool :=
  match (rets.filterMap id).min?, (rets.filterMap id).max? with
  | some mn, some mx => decide (mn < 0 ∨ mx < 1)
  | _, _ => false

/-- quantstats `stats.max_drawdown` applied, as in the source, to a return
series: `_prepare_prices` compounds the series into the price index
`cumprod(1 + r)` whenever `qs_isReturns` holds, then the result is
`(prices / expanding max).min() - 1`.  A series not recognized as returns is
used as prices unchanged, NaN entries propagating through the ratio and
skipped by min. -/
def qs_max_drawdown (rets : List (Option ℚ)) : Option ℚ :=
  if qs_isReturns rets then
    let P := qs_to_prices rets
    ((List.zipWith (fun p m => p / m) P (runningMaxList P)).min?).map (· - 1)
  else
    let ratios := List.zipWith
      (fun p m => match p, m with
        | some a, some b => some (a / b)
        | _, _ => none)
      rets (scanMaxO none rets)
    ((ratios.filterMap id).min?).map (· - 1)

/-- The `max_drawdown` component of `calculate_risk_metrics`: the column check
and `qs.stats.max_drawdown` applied to the `Daily_Return` column. -/
def risk_metrics_max_drawdown (hasDate hasClose hasReturn : Bool)
    (rets : List (Option ℚ)) : Except String (Option ℚ) :=
  if hasDate = false ∨ hasClose = false ∨ hasReturn = false then
    .error "DataFrame must contain Date, Close, and Daily_Return columns."
  else .ok (qs_max_drawdown rets)

/-- Maximum closing value over the prefix `[0, j]` of a price list. -/
def prefMax : List ℚ → ℕ → ℚ
  | [], _ => 0
  | x :: xs, j => (xs.take j).foldl max x

/-- The price rows of Scenario B of the specification:
prices 100, 100, 80, 60, 90, 110 on six consecutive days. -/
def rowsB : List Row :=
  [⟨0, 100⟩, ⟨1, 100⟩, ⟨2, 80⟩, ⟨3, 60⟩, ⟨4, 90⟩, ⟨5, 110⟩]

/-- Whether a pipeline call failed. -/
def isFailure {α : Type} : Except String α → Bool
  | .error _ => true
  | .ok _ => false

/-- The dates of the rows are strictly increasing (the PriceSeries contract). -/
abbrev SortedDates (rows : List Row) : Prop :=
  rows.Pairwise fun a b => a.date < b.date

/-- All closing prices are positive (the PriceSeries contract). -/
abbrev ClosesPos (rows : List Row) : Prop :=
  ∀ r ∈ rows, 0 < r.close

/-- Well-formedness of an emitted episode: its peak and trough sit at indices
`jp < jt` of the series, the peak price is the running maximum of the series up
to the peak, and the trough price is strictly below the peak price. -/
def EpWF (rows : List Row) (r : Episode) : Prop :=
  ∃ jp jt : ℕ, jp < jt ∧ jt < rows.length ∧
    r.Peak_Date = dateAt rows jp ∧ r.Trough_Date = dateAt rows jt ∧
    r.Peak_Price = closeAt rows jp ∧ r.Trough_Price = closeAt rows jt ∧
    r.Peak_Price = prefMax (rows.map Row.close) jp ∧
    r.Trough_Price < r.Peak_Price

/-- Loop invariant of the detector scan, holding after the indices `1 .. i-1`
have been processed. -/
structure DDInv (rows : List Row) (i : ℕ) (s : DDState) : Prop where
  peak_lt : s.peakIdx < i
  peak_price : s.peakPrice = closeAt rows s.peakIdx
  peak_max : s.peakPrice = prefMax (rows.map Row.close) (i - 1)
  dd_start : s.inDD = true → s.ddStart = some s.peakIdx
  recs_wf : ∀ r ∈ s.recs, EpWF rows r
  recs_lt : ∀ r ∈ s.recs, r.Trough_Date < dateAt rows s.peakIdx
  recs_chain : s.recs.Chain' fun a b => a.Trough_Date < b.Peak_Date

/-- A two-row series that ends while the detector is still in a drawdown. -/
def rowsOpenDecline : List Row := [⟨0, 100⟩, ⟨1, 70⟩]

/-- A two-row halving series, used against the aggregate max-drawdown metric. -/
def rowsHalf : List Row := [⟨0, 100⟩, ⟨1, 50⟩]

/-- A series with two major drawdowns where the second episode's peak sits at
the very index that closed the first episode. -/
def rowsBackToBack : List Row :=
  [⟨0, 100⟩, ⟨1, 70⟩, ⟨2, 101⟩, ⟨3, 60⟩, ⟨4, 102⟩]

/-- C1: on Scenario B (prices 100, 100, 80, 60, 90, 110 on days 0..5, threshold
20) the detector emits exactly one episode, peaking at index 0 with peak price
100, trough at index 3 with trough price 60, drawdown -40 percent and duration
`date[3] - date[0]` days, and the recovery analyzer finds the recovery at index
5 with `recovery_days = date[5] - date[3]`. -/
theorem scenarioB_episode_and_recovery :
    find_major_drawdowns ⟨true, true, rowsB⟩ 20 =
      .ok [⟨dateAt rowsB 0, dateAt rowsB 3, 100, 60, -40,
        dateAt rowsB 3 - dateAt rowsB 0⟩] ∧
    calculate_recovery rowsB
        [⟨dateAt rowsB 0, dateAt rowsB 3, 100, 60, -40,
          dateAt rowsB 3 - dateAt rowsB 0⟩] =
      [⟨-40, dateAt rowsB 3 - dateAt rowsB 0, dateAt rowsB 5 - dateAt rowsB 3, 1/10,
        dateAt rowsB 3, dateAt rowsB 5⟩] := by
  constructor
  · norm_num [find_major_drawdowns, ddFinal, ddScan, ddStep, ddInit,
      calculate_drawdown_metrics, idxminClose, closeAt, dateAt, rowsB, List.range']
  · norm_num [calculate_recovery, recoveryFor, rowsB, round1, round_eq, List.filter,
      List.filterMap, dateAt, closeAt]

/-- C4: `find_major_drawdowns` fails exactly when the Date or Close column is
missing or the threshold is not positive; an empty series with valid columns
and a positive threshold yields an empty episode list, not an error. -/
theorem find_major_drawdowns_failure_iff (df : Frame) (th : ℚ) :
    (isFailure (find_major_drawdowns df th) = true ↔
      df.hasDate = false ∨ df.hasClose = false ∨ th ≤ 0) ∧
    (df.hasDate = true → df.hasClose = true → 0 < th → df.rows = [] →
      find_major_drawdowns df th = .ok []) := by
  constructor
  · unfold find_major_drawdowns
    split_ifs with h1 h2 h3 <;> simp only [isFailure] <;> simp
    · tauto
    · tauto
    · push_neg at h1
      simp_all
    · push_neg at h1
      simp_all
  · intro hD hC hth hrows
    unfold find_major_drawdowns
    split_ifs with h1 h2 h3
    · simp_all
    · exact absurd hth (by simpa using h2)
    · rfl
    · simp_all

/-- Witness for C4 at the empty frame with both columns and threshold 20. -/
theorem find_major_drawdowns_failure_iff_witness :
    find_major_drawdowns ⟨true, true, []⟩ 20 = .ok [] :=
  (find_major_drawdowns_failure_iff ⟨true, true, []⟩ 20).2 rfl rfl (by norm_num) rfl

/-! ### List helper lemmas -/

theorem pct_change_length (c : List ℚ) : (pct_change c).length = c.length := by
  cases c with
  | nil => rfl
  | cons x xs =>
    simp [pct_change, List.length_zipWith]

theorem pct_change_zip_get (xs : List ℚ) : ∀ (p : ℚ) (j : ℕ), j < xs.length →
    (List.zipWith (fun prev cur => some (cur / prev - 1)) (p :: xs) xs).get? j
      = some (some (xs.getD j 0 / (p :: xs).getD j 0 - 1)) := by
  induction xs with
  | nil =>
    intro p j hj
    simp at hj
  | cons x xs ih =>
    intro p j hj
    cases j with
    | zero => simp [List.getD]
    | succ j =>
      have hj' : j < xs.length := by simpa using hj
      simpa using ih x j hj'

/-- C8: for a nonempty price series with a Close column, `calculate_returns`
succeeds with a return column of the same length whose first entry is the
undefined marker (not zero) and whose entry `i > 0` is `p[i]/p[i-1] - 1`. -/
theorem calculate_returns_spec (c : List ℚ) (hne : c ≠ []) :
    ∃ rets, calculate_returns true c = .ok rets ∧ rets.length = c.length ∧
      rets.get? 0 = some none ∧
      ∀ i, 0 < i → i < c.length →
        rets.get? i = some (some (c.getD i 0 / c.getD (i - 1) 0 - 1)) := by
  refine ⟨pct_change c, by simp [calculate_returns], pct_change_length c, ?_, ?_⟩
  · cases c with
    | nil => exact absurd rfl hne
    | cons x xs => rfl
  · intro i hi0 hilen
    cases c with
    | nil => exact absurd rfl hne
    | cons x xs =>
      obtain ⟨j, rfl⟩ : ∃ j, i = j + 1 := ⟨i - 1, by omega⟩
      have hj : j < xs.length := by
        simpa using hilen
      have := pct_change_zip_get xs x j hj
      simpa [pct_change] using this

/-- Witness for C8 on a concrete two-point series. -/
theorem calculate_returns_spec_witness :
    ∃ rets, calculate_returns true [100, 110] = .ok rets ∧ rets.length = 2 ∧
      rets.get? 0 = some none ∧
      ∀ i, 0 < i → i < 2 →
        rets.get? i = some (some (([100, 110] : List ℚ).getD i 0
          / ([100, 110] : List ℚ).getD (i - 1) 0 - 1)) :=
  calculate_returns_spec [100, 110] (by decide)

theorem closes_getD : ∀ (rows : List Row) (i : ℕ),
    (rows.map Row.close).getD i 0 = closeAt rows i := by
  intro rows
  induction rows with
  | nil => intro i; simp [closeAt]
  | cons r rows ih =>
    intro i
    cases i with
    | zero => simp [closeAt]
    | succ i => simpa [closeAt] using ih i

theorem le_foldl_max (l : List ℚ) : ∀ a : ℚ, a ≤ l.foldl max a := by
  induction l with
  | nil => intro a; exact le_refl a
  | cons x l ih =>
    intro a
    exact le_trans (le_max_left a x) (ih (max a x))

theorem foldl_max_take_succ :
    ∀ (xs : List ℚ) (j : ℕ) (a : ℚ), j < xs.length →
      ((xs.take (j + 1)).foldl max a) = max ((xs.take j).foldl max a) (xs.getD j 0) := by
  intro xs
  induction xs with
  | nil =>
    intro j a hj
    simp at hj
  | cons x xs ih =>
    intro j a hj
    cases j with
    | zero => simp
    | succ j =>
      have hj' : j < xs.length := by simpa using hj
      simpa using ih j (max a x) hj'

theorem prefMax_succ (c : List ℚ) (j : ℕ) (hj : j + 1 < c.length) :
    prefMax c (j + 1) = max (prefMax c j) (c.getD (j + 1) 0) := by
  cases c with
  | nil => simp at hj
  | cons x xs =>
    have hj' : j < xs.length := by simpa using hj
    simpa [prefMax] using foldl_max_take_succ xs j x hj'

theorem getD_le_prefMax (c : List ℚ) (j : ℕ) (hj : j < c.length) :
    c.getD j 0 ≤ prefMax c j := by
  cases c with
  | nil => simp at hj
  | cons x xs =>
    cases j with
    | zero => simp [prefMax]
    | succ j =>
      rw [prefMax_succ (x :: xs) j hj]
      exact le_max_right _ _

theorem prefMax_le_prefMax (c : List ℚ) {j k : ℕ} (hjk : j ≤ k) (hk : k < c.length) :
    prefMax c j ≤ prefMax c k := by
  induction k, hjk using Nat.le_induction with
  | base => exact le_refl _
  | succ k hjk ih =>
    rw [prefMax_succ c k hk]
    exact le_trans (ih (by omega)) (le_max_left _ _)

theorem prefMax_pos (c : List ℚ) (hpos : ∀ x ∈ c, 0 < x) (hne : c ≠ []) (j : ℕ) :
    0 < prefMax c j := by
  cases c with
  | nil => exact absurd rfl hne
  | cons x xs =>
    have hx : 0 < x := hpos x (by simp)
    exact lt_of_lt_of_le hx (le_foldl_max _ x)

theorem scanMax_length : ∀ (xs : List ℚ) (a : ℚ), (scanMax a xs).length = xs.length := by
  intro xs
  induction xs with
  | nil => intro a; rfl
  | cons x xs ih => intro a; simp [scanMax, ih]

theorem runningMax_length (c : List ℚ) : (runningMaxList c).length = c.length := by
  cases c with
  | nil => rfl
  | cons x xs => simp [runningMaxList, scanMax_length]

theorem scanMax_get? : ∀ (xs : List ℚ) (a : ℚ) (t : ℕ), t < xs.length →
    (scanMax a xs).get? t = some ((xs.take (t + 1)).foldl max a) := by
  intro xs
  induction xs with
  | nil =>
    intro a t ht
    simp at ht
  | cons x xs ih =>
    intro a t ht
    cases t with
    | zero => simp [scanMax]
    | succ t =>
      have ht' : t < xs.length := by simpa using ht
      simpa [scanMax] using ih (max a x) t ht'

theorem runningMax_get? (c : List ℚ) (t : ℕ) (ht : t < c.length) :
    (runningMaxList c).get? t = some (prefMax c t) := by
  cases c with
  | nil => simp at ht
  | cons x xs =>
    cases t with
    | zero => rfl
    | succ t =>
      have ht' : t < xs.length := by simpa using ht
      simpa [runningMaxList, prefMax] using scanMax_get? xs x t ht'

theorem getD_of_get? {α : Type} {l : List α} {t : ℕ} {v d : α}
    (h : l.get? t = some v) : l.getD t d = v := by
  rw [List.get?_eq_getElem?] at h
  simp [List.getD_eq_getElem?_getD, h]

theorem chain_le_scanMax : ∀ (xs : List ℚ) (a : ℚ),
    (a :: scanMax a xs).Chain' (· ≤ ·) := by
  intro xs
  induction xs with
  | nil => intro a; simp [scanMax]
  | cons x xs ih =>
    intro a
    exact List.chain'_cons.mpr ⟨le_max_left a x, ih (max a x)⟩

theorem runningMax_chain (c : List ℚ) : (runningMaxList c).Chain' (· ≤ ·) := by
  cases c with
  | nil => simp [runningMaxList]
  | cons x xs => exact chain_le_scanMax xs x

theorem getD_zipWith {α β γ : Type} (f : α → β → γ) (d1 : α) (d2 : β) (d3 : γ) :
    ∀ (l1 : List α) (l2 : List β) (t : ℕ), t < l1.length → t < l2.length →
      (List.zipWith f l1 l2).getD t d3 = f (l1.getD t d1) (l2.getD t d2) := by
  intro l1
  induction l1 with
  | nil =>
    intro l2 t h1 h2
    simp at h1
  | cons x l1 ih =>
    intro l2 t h1 h2
    cases l2 with
    | nil => simp at h2
    | cons y l2 =>
      cases t with
      | zero => simp
      | succ t =>
        have h1' : t < l1.length := by simpa using h1
        have h2' : t < l2.length := by simpa using h2
        simpa using ih l2 t h1' h2'

theorem getD_map_mul100 : ∀ (l : List ℚ) (t : ℕ),
    (l.map (· * 100)).getD t 0 = l.getD t 0 * 100 := by
  intro l
  induction l with
  | nil => intro t; simp
  | cons x l ih =>
    intro t
    cases t with
    | zero => simp
    | succ t => simpa using ih t

/-- C6: on a price series with positive closes, `calculate_drawdown` yields a
Drawdown column with `dd[t] = (price[t] - max(price[0..t])) / max(price[0..t]) * 100`,
always nonpositive, a monotonically non-decreasing Running_Max column equal to
the prefix maxima, full-length columns with no undefined entry, and drawdown 0
at the first point. -/
theorem calculate_drawdown_spec (rows : List Row) (hpos : ClosesPos rows) :
    ∃ dd rm mdd, calculate_drawdown ⟨true, true, rows⟩ = .ok (dd, rm, mdd) ∧
      dd.length = rows.length ∧ rm.length = rows.length ∧
      rm.Chain' (· ≤ ·) ∧
      (∀ t, t < rows.length →
        rm.getD t 0 = prefMax (rows.map Row.close) t ∧
        dd.getD t 0 = (closeAt rows t - prefMax (rows.map Row.close) t)
            / prefMax (rows.map Row.close) t * 100 ∧
        dd.getD t 0 ≤ 0) ∧
      (rows ≠ [] → dd.getD 0 0 = 0) := by
  have hcpos : ∀ x ∈ rows.map Row.close, 0 < x := by
    intro x hx
    obtain ⟨r, hr, rfl⟩ := List.mem_map.mp hx
    exact hpos r hr
  have hlen : (rows.map Row.close).length = rows.length := List.length_map _ _
  have hpt : ∀ t, t < rows.length →
      ((to_drawdown_series (rows.map Row.close)).map (· * 100)).getD t 0 =
        (closeAt rows t - prefMax (rows.map Row.close) t)
          / prefMax (rows.map Row.close) t * 100 ∧
      ((to_drawdown_series (rows.map Row.close)).map (· * 100)).getD t 0 ≤ 0 := by
    intro t ht
    have htc : t < (rows.map Row.close).length := by omega
    have hne : rows.map Row.close ≠ [] := by
      intro h
      rw [h] at htc
      simp at htc
    have hM : 0 < prefMax (rows.map Row.close) t := prefMax_pos _ hcpos hne t
    have hzip : (to_drawdown_series (rows.map Row.close)).getD t 0 =
        (rows.map Row.close).getD t 0 / (runningMaxList (rows.map Row.close)).getD t 0 - 1 := by
      have := getD_zipWith (fun p m => p / m - 1) 0 0 0 (rows.map Row.close)
        (runningMaxList (rows.map Row.close)) t htc (by rw [runningMax_length]; exact htc)
      simpa [to_drawdown_series] using this
    have hrm : (runningMaxList (rows.map Row.close)).getD t 0 =
        prefMax (rows.map Row.close) t := getD_of_get? (runningMax_get? _ t htc)
    have hval : ((to_drawdown_series (rows.map Row.close)).map (· * 100)).getD t 0 =
        (closeAt rows t - prefMax (rows.map Row.close) t)
          / prefMax (rows.map Row.close) t * 100 := by
      rw [getD_map_mul100, hzip, hrm, closes_getD]
      field_simp
    refine ⟨hval, ?_⟩
    rw [hval]
    have hle : closeAt rows t ≤ prefMax (rows.map Row.close) t := by
      rw [← closes_getD]
      exact getD_le_prefMax _ t htc
    have h2 : (closeAt rows t - prefMax (rows.map Row.close) t)
        / prefMax (rows.map Row.close) t ≤ 0 :=
      div_nonpos_iff.mpr (Or.inr ⟨by linarith, hM.le⟩)
    linarith
  refine ⟨(to_drawdown_series (rows.map Row.close)).map (· * 100),
    runningMaxList (rows.map Row.close),
    runningMinList ((to_drawdown_series (rows.map Row.close)).map (· * 100)),
    by simp [calculate_drawdown], ?_, ?_, ?_, ?_, ?_⟩
  · simp [to_drawdown_series, List.length_zipWith, runningMax_length]
  · simp [runningMax_length]
  · exact runningMax_chain _
  · intro t ht
    have htc : t < (rows.map Row.close).length := by omega
    exact ⟨getD_of_get? (runningMax_get? _ t htc), (hpt t ht).1, (hpt t ht).2⟩
  · intro hne
    have h0 : 0 < rows.length := List.length_pos.mpr hne
    have := (hpt 0 h0).1
    rw [this]
    cases rows with
    | nil => exact absurd rfl hne
    | cons r rest =>
      have : prefMax ((r :: rest).map Row.close) 0 = r.close := rfl
      rw [this]
      have : closeAt (r :: rest) 0 = r.close := rfl
      rw [this]
      have hr : r.close ≠ 0 := ne_of_gt (hpos r (by simp))
      field_simp

/-- Witness for C6 on a concrete two-point series. -/
theorem calculate_drawdown_spec_witness :
    ∃ dd rm mdd, calculate_drawdown ⟨true, true, rowsHalf⟩ = .ok (dd, rm, mdd) ∧
      dd.length = rowsHalf.length ∧ rm.length = rowsHalf.length ∧
      rm.Chain' (· ≤ ·) ∧
      (∀ t, t < rowsHalf.length →
        rm.getD t 0 = prefMax (rowsHalf.map Row.close) t ∧
        dd.getD t 0 = (closeAt rowsHalf t - prefMax (rowsHalf.map Row.close) t)
            / prefMax (rowsHalf.map Row.close) t * 100 ∧
        dd.getD t 0 ≤ 0) ∧
      (rowsHalf ≠ [] → dd.getD 0 0 = 0) :=
  calculate_drawdown_spec rowsHalf (by decide)

theorem sum_sq_dev (vs : List ℚ) (μ : ℚ) :
    (vs.map fun x => (x - μ) ^ 2).sum
      = (vs.map fun x => x * x).sum - 2 * μ * vs.sum + (vs.length : ℚ) * μ ^ 2 := by
  induction vs with
  | nil => simp
  | cons x vs ih =>
    simp only [List.map_cons, List.sum_cons, List.length_cons]
    rw [ih]
    push_cast
    ring

theorem sampleVar_spec (vs : List ℚ) (hn : (vs.length : ℚ) ≠ 0) :
    sampleVar vs
      = (vs.map fun x => (x - vs.sum / (vs.length : ℚ)) ^ 2).sum
          / ((vs.length : ℚ) - 1) := by
  unfold sampleVar
  rw [sum_sq_dev]
  congr 1
  field_simp
  ring

theorem filterMap_id_map_some {α : Type} (vs : List α) :
    (vs.map some).filterMap id = vs := by
  induction vs with
  | nil => rfl
  | cons x vs ih => simp [ih]

theorem window_length (rets : List (Option ℚ)) (w t : ℕ) (hwt : w ≤ t + 1)
    (ht : t < rets.length) : ((rets.drop (t + 1 - w)).take w).length = w := by
  simp only [List.length_take, List.length_drop]
  omega

theorem rollingStd_getD (rets : List (Option ℚ)) (w t : ℕ) (ht : t < rets.length) :
    (rollingStd rets w).getD t none =
      if t + 1 < w then none
      else if ((rets.drop (t + 1 - w)).take w).all Option.isSome then
        some (sampleStd (((rets.drop (t + 1 - w)).take w).filterMap id))
      else none := by
  apply getD_of_get?
  unfold rollingStd
  rw [List.get?_map, List.get?_range ht]
  rfl

theorem volColumn_getD (rets : List (Option ℚ)) (w t : ℕ) (ht : t < rets.length) :
    (volColumn rets w).getD t none =
      Option.map (fun s => s * Real.sqrt 252 * 100) ((rollingStd rets w).getD t none) := by
  have hlen : t < (rollingStd rets w).length := by simpa [rollingStd] using ht
  have hv : (rollingStd rets w).get? t = some ((rollingStd rets w).get ⟨t, hlen⟩) :=
    List.get?_eq_get hlen
  unfold volColumn
  have h2 : ((rollingStd rets w).map (Option.map fun s => s * Real.sqrt 252 * 100)).get? t
      = some (Option.map (fun s => s * Real.sqrt 252 * 100)
          ((rollingStd rets w).get ⟨t, hlen⟩)) := by
    rw [List.get?_map, hv]
    rfl
  rw [getD_of_get? h2, getD_of_get? hv]

/-- C7: for every return series and window in (30, 60, 252),
`calculate_volatility` produces the column whose entry `t` is undefined for
`t < w - 1` and otherwise, whenever the window holds defined returns
`vs = returns[t-w+1..t]`, equals the sample standard deviation of `vs` (the
n-1 denominator) times `sqrt(252) * 100`. -/
theorem calculate_volatility_spec (rets : List (Option ℚ)) (w : ℕ)
    (hw : w ∈ ([30, 60, 252] : List ℕ)) :
    (∃ cols, calculate_volatility true rets = .ok cols ∧ (w, volColumn rets w) ∈ cols) ∧
    (volColumn rets w).length = rets.length ∧
    ∀ t, t < rets.length →
      (t + 1 < w → (volColumn rets w).getD t none = none) ∧
      (w ≤ t + 1 → ∀ vs : List ℚ, (rets.drop (t + 1 - w)).take w = vs.map some →
        (volColumn rets w).getD t none =
          some (Real.sqrt ((((vs.map fun x => (x - vs.sum / (vs.length : ℚ)) ^ 2).sum
              / ((vs.length : ℚ) - 1) : ℚ) : ℝ)) * Real.sqrt 252 * 100)) := by
  have hw' : w = 30 ∨ w = 60 ∨ w = 252 := by simpa using hw
  refine ⟨⟨[30, 60, 252].map fun x => (x, volColumn rets x),
    by simp [calculate_volatility], List.mem_map.mpr ⟨w, hw, rfl⟩⟩, ?_, ?_⟩
  · simp [volColumn, rollingStd]
  · intro t ht
    constructor
    · intro hlt
      rw [volColumn_getD rets w t ht, rollingStd_getD rets w t ht, if_pos hlt]
      rfl
    · intro hge vs hvs
      have hlenvs : vs.length = w := by
        have h := congrArg List.length hvs
        rw [window_length rets w t hge ht] at h
        simpa using h.symm
      have hw0 : (vs.length : ℚ) ≠ 0 := by
        rw [hlenvs]
        rcases hw' with rfl | rfl | rfl <;> norm_num
      rw [volColumn_getD rets w t ht, rollingStd_getD rets w t ht,
        if_neg (by omega), hvs]
      have hall : (vs.map some).all Option.isSome = true := by simp
      rw [if_pos hall, filterMap_id_map_some]
      simp only [Option.map_some', sampleStd]
      rw [sampleVar_spec vs hw0]

/-- Witness for C7 at window 30 on a constant return series of length 30. -/
theorem calculate_volatility_spec_witness :
    (∃ cols, calculate_volatility true (List.replicate 30 (some (1 : ℚ))) = .ok cols ∧
      (30, volColumn (List.replicate 30 (some (1 : ℚ))) 30) ∈ cols) ∧
    (volColumn (List.replicate 30 (some (1 : ℚ))) 30).length
      = (List.replicate 30 (some (1 : ℚ))).length ∧
    ∀ t, t < (List.replicate 30 (some (1 : ℚ))).length →
      (t + 1 < 30 →
        (volColumn (List.replicate 30 (some (1 : ℚ))) 30).getD t none = none) ∧
      (30 ≤ t + 1 → ∀ vs : List ℚ,
        ((List.replicate 30 (some (1 : ℚ))).drop (t + 1 - 30)).take 30 = vs.map some →
        (volColumn (List.replicate 30 (some (1 : ℚ))) 30).getD t none =
          some (Real.sqrt ((((vs.map fun x => (x - vs.sum / (vs.length : ℚ)) ^ 2).sum
              / ((vs.length : ℚ) - 1) : ℚ) : ℝ)) * Real.sqrt 252 * 100)) :=
  calculate_volatility_spec (List.replicate 30 (some (1 : ℚ))) 30 (by decide)

/-- C2: for each episode handed to the recovery analyzer, either no date after
the trough regains the peak price and the episode contributes no record (and
no error is signalled), or the analyzer emits the record of the first date
strictly after the trough whose price is at least the peak price, with
non-negative `recovery_days` equal to the calendar days from trough to that
date and `recovery_months = recovery_days / 30.44` rounded to one decimal. -/
theorem calculate_recovery_spec (rows : List Row) (eps : List Episode)
    (hsort : SortedDates rows) (e : Episode) (he : e ∈ eps) :
    calculate_recovery rows eps = eps.filterMap (recoveryFor rows) ∧
    ((∀ r ∈ rows, e.Trough_Date < r.date → r.close < e.Peak_Price)
        ∧ recoveryFor rows e = none
     ∨ ∃ r ∈ rows, e.Trough_Date < r.date ∧ e.Peak_Price ≤ r.close ∧
        (∀ r2 ∈ rows, e.Trough_Date < r2.date → r2.date < r.date →
          r2.close < e.Peak_Price) ∧
        recoveryFor rows e = some
          { Drawdown_Pct := e.Drawdown_Pct
            Drawdown_Duration_Days := e.Duration_Days
            Recovery_Days := r.date - e.Trough_Date
            Recovery_Months := round1 (((r.date - e.Trough_Date : ℤ) : ℚ) / (761 / 25))
            Trough_Date := e.Trough_Date
            Recovery_Date := r.date } ∧
        0 ≤ r.date - e.Trough_Date) := by
  refine ⟨rfl, ?_⟩
  rcases hl2 : ((rows.filter fun r => decide (e.Trough_Date < r.date)).filter
      fun r => decide (e.Peak_Price ≤ r.close)) with _ | ⟨a, tl⟩
  · left
    constructor
    · intro r hr hdate
      by_contra hge
      push_neg at hge
      have h1 : r ∈ rows.filter fun r => decide (e.Trough_Date < r.date) :=
        List.mem_filter.mpr ⟨hr, by simpa using hdate⟩
      have h2 : r ∈ (rows.filter fun r => decide (e.Trough_Date < r.date)).filter
          fun r => decide (e.Peak_Price ≤ r.close) :=
        List.mem_filter.mpr ⟨h1, by simpa using hge⟩
      rw [hl2] at h2
      simp at h2
    · unfold recoveryFor
      rw [hl2]
      rfl
  · right
    have hmem : a ∈ (rows.filter fun r => decide (e.Trough_Date < r.date)).filter
        fun r => decide (e.Peak_Price ≤ r.close) := by
      rw [hl2]
      simp
    have hmem1 := List.mem_filter.mp hmem
    have hmem2 := List.mem_filter.mp hmem1.1
    have hdate : e.Trough_Date < a.date := by simpa using hmem2.2
    have hclose : e.Peak_Price ≤ a.close := by simpa using hmem1.2
    refine ⟨a, hmem2.1, hdate, hclose, ?_, ?_, by omega⟩
    · intro r2 hr2 hd2 hlt2
      by_contra hge
      push_neg at hge
      have h1 : r2 ∈ rows.filter fun r => decide (e.Trough_Date < r.date) :=
        List.mem_filter.mpr ⟨hr2, by simpa using hd2⟩
      have h2 : r2 ∈ (rows.filter fun r => decide (e.Trough_Date < r.date)).filter
          fun r => decide (e.Peak_Price ≤ r.close) :=
        List.mem_filter.mpr ⟨h1, by simpa using hge⟩
      have hsub : ((rows.filter fun r => decide (e.Trough_Date < r.date)).filter
          fun r => decide (e.Peak_Price ≤ r.close)).Sublist rows :=
        List.Sublist.trans (List.filter_sublist _) (List.filter_sublist _)
      have hpw := List.Pairwise.sublist hsub hsort
      rw [hl2] at h2 hpw
      rcases List.mem_cons.mp h2 with rfl | h3
      · omega
      · have := (List.pairwise_cons.mp hpw).1 r2 h3
        omega
    · unfold recoveryFor
      rw [hl2]
      rfl

/-- Witness for C2 on Scenario B's series and its single episode. -/
theorem calculate_recovery_spec_witness :
    calculate_recovery rowsB [⟨0, 3, 100, 60, -40, 3⟩]
        = [⟨0, 3, 100, 60, -40, 3⟩].filterMap (recoveryFor rowsB) ∧
    ((∀ r ∈ rowsB, (⟨0, 3, 100, 60, -40, 3⟩ : Episode).Trough_Date < r.date →
        r.close < (⟨0, 3, 100, 60, -40, 3⟩ : Episode).Peak_Price)
        ∧ recoveryFor rowsB ⟨0, 3, 100, 60, -40, 3⟩ = none
     ∨ ∃ r ∈ rowsB, (⟨0, 3, 100, 60, -40, 3⟩ : Episode).Trough_Date < r.date ∧
        (⟨0, 3, 100, 60, -40, 3⟩ : Episode).Peak_Price ≤ r.close ∧
        (∀ r2 ∈ rowsB, (⟨0, 3, 100, 60, -40, 3⟩ : Episode).Trough_Date < r2.date →
          r2.date < r.date → r2.close < (⟨0, 3, 100, 60, -40, 3⟩ : Episode).Peak_Price) ∧
        recoveryFor rowsB ⟨0, 3, 100, 60, -40, 3⟩ = some
          { Drawdown_Pct := (⟨0, 3, 100, 60, -40, 3⟩ : Episode).Drawdown_Pct
            Drawdown_Duration_Days := (⟨0, 3, 100, 60, -40, 3⟩ : Episode).Duration_Days
            Recovery_Days := r.date - (⟨0, 3, 100, 60, -40, 3⟩ : Episode).Trough_Date
            Recovery_Months := round1 (((r.date
              - (⟨0, 3, 100, 60, -40, 3⟩ : Episode).Trough_Date : ℤ) : ℚ) / (761 / 25))
            Trough_Date := (⟨0, 3, 100, 60, -40, 3⟩ : Episode).Trough_Date
            Recovery_Date := r.date } ∧
        0 ≤ r.date - (⟨0, 3, 100, 60, -40, 3⟩ : Episode).Trough_Date) :=
  calculate_recovery_spec rowsB [⟨0, 3, 100, 60, -40, 3⟩] (by decide)
    ⟨0, 3, 100, 60, -40, 3⟩ (by simp)

theorem sorted_dateAt_lt (rows : List Row) (hsort : SortedDates rows) (j k : ℕ)
    (hjk : j < k) (hk : k < rows.length) : dateAt rows j < dateAt rows k := by
  have hj : j < rows.length := lt_trans hjk hk
  have h := List.pairwise_iff_getElem.mp hsort j k hj hk hjk
  have e1 : dateAt rows j = rows[j].date := by
    simp [dateAt, List.getD_eq_getElem?_getD, List.getElem?_eq_getElem hj]
  have e2 : dateAt rows k = rows[k].date := by
    simp [dateAt, List.getD_eq_getElem?_getD, List.getElem?_eq_getElem hk]
  rw [e1, e2]
  exact h

theorem closeAt_pos (rows : List Row) (hpos : ClosesPos rows) (j : ℕ)
    (hj : j < rows.length) : 0 < closeAt rows j := by
  have e1 : closeAt rows j = rows[j].close := by
    simp [closeAt, List.getD_eq_getElem?_getD, List.getElem?_eq_getElem hj]
  rw [e1]
  exact hpos _ (List.getElem_mem hj)

theorem foldl_pick_le (rows : List Row) :
    ∀ (l : List ℕ) (b : ℕ),
      closeAt rows (l.foldl (fun best k =>
        if closeAt rows k < closeAt rows best then k else best) b) ≤ closeAt rows b ∧
      ∀ k ∈ l, closeAt rows (l.foldl (fun best k =>
        if closeAt rows k < closeAt rows best then k else best) b) ≤ closeAt rows k := by
  intro l
  induction l with
  | nil =>
    intro b
    exact ⟨le_refl _, by simp⟩
  | cons k0 l ih =>
    intro b
    simp only [List.foldl_cons]
    have hble : closeAt rows (if closeAt rows k0 < closeAt rows b then k0 else b)
          ≤ closeAt rows b ∧
        closeAt rows (if closeAt rows k0 < closeAt rows b then k0 else b)
          ≤ closeAt rows k0 := by
      split_ifs with h
      · exact ⟨le_of_lt h, le_refl _⟩
      · exact ⟨le_refl _, le_of_not_lt h⟩
    refine ⟨le_trans (ih _).1 hble.1, ?_⟩
    intro k hk
    rcases List.mem_cons.mp hk with rfl | hk2
    · exact le_trans (ih _).1 hble.2
    · exact (ih _).2 k hk2

theorem foldl_pick_mem (rows : List Row) :
    ∀ (l : List ℕ) (b : ℕ),
      l.foldl (fun best k => if closeAt rows k < closeAt rows best then k else best) b = b
        ∨ l.foldl (fun best k =>
            if closeAt rows k < closeAt rows best then k else best) b ∈ l := by
  intro l
  induction l with
  | nil =>
    intro b
    exact Or.inl rfl
  | cons k0 l ih =>
    intro b
    simp only [List.foldl_cons]
    rcases ih (if closeAt rows k0 < closeAt rows b then k0 else b) with h | h
    · rw [h]
      split_ifs with hc
      · exact Or.inr (by simp)
      · exact Or.inl rfl
    · exact Or.inr (List.mem_cons_of_mem _ h)

theorem idxmin_bounds (rows : List Row) (lo hi : ℕ) (hlohi : lo ≤ hi) :
    lo ≤ idxminClose rows lo hi ∧ idxminClose rows lo hi ≤ hi := by
  unfold idxminClose
  rcases foldl_pick_mem rows (List.range' (lo + 1) (hi - lo)) lo with h | h
  · rw [h]
    exact ⟨le_refl _, hlohi⟩
  · obtain ⟨i, hi2, he⟩ := List.mem_range'.mp h
    constructor <;> omega

theorem idxmin_le_lo (rows : List Row) (lo hi : ℕ) :
    closeAt rows (idxminClose rows lo hi) ≤ closeAt rows lo :=
  (foldl_pick_le rows _ lo).1

theorem idxmin_min (rows : List Row) (lo hi k : ℕ) (hk1 : lo + 1 ≤ k) (hk2 : k ≤ hi) :
    closeAt rows (idxminClose rows lo hi) ≤ closeAt rows k := by
  apply (foldl_pick_le rows _ lo).2
  exact List.mem_range'.mpr ⟨k - (lo + 1), by omega, by omega⟩

theorem calc_metrics_wf (rows : List Row) (th : ℚ) (hsort : SortedDates rows)
    (hpos : ClosesPos rows) (hth : 0 < th) (start i : ℕ) (hsi : start < i)
    (hin : i < rows.length)
    (hmax : closeAt rows start = prefMax (rows.map Row.close) start)
    (hclose : closeAt rows start < closeAt rows i)
    (r : Episode) (h : calculate_drawdown_metrics rows start i th = some r) :
    EpWF rows r ∧ r.Peak_Date = dateAt rows start ∧ r.Trough_Date < dateAt rows i := by
  unfold calculate_drawdown_metrics at h
  by_cases habs : |(closeAt rows (idxminClose rows start i) - closeAt rows start)
      / closeAt rows start * 100| < th
  · rw [if_pos habs] at h
    exact absurd h (by simp)
  · rw [if_neg habs] at h
    obtain rfl := Option.some_inj.mp h
    have hb := idxmin_bounds rows start i (le_of_lt hsi)
    have hcs : 0 < closeAt rows start := closeAt_pos rows hpos start (by omega)
    have hctle : closeAt rows (idxminClose rows start i) ≤ closeAt rows start :=
      idxmin_le_lo rows start i
    have hddle : (closeAt rows (idxminClose rows start i) - closeAt rows start)
        / closeAt rows start * 100 ≤ 0 := by
      have h1 : (closeAt rows (idxminClose rows start i) - closeAt rows start)
          / closeAt rows start ≤ 0 :=
        div_nonpos_iff.mpr (Or.inr ⟨by linarith, hcs.le⟩)
      linarith
    have hddne : (closeAt rows (idxminClose rows start i) - closeAt rows start)
        / closeAt rows start * 100 ≠ 0 := by
      intro h0
      rw [h0] at habs
      simp at habs
      linarith
    have hctlt : closeAt rows (idxminClose rows start i) < closeAt rows start := by
      rcases lt_or_eq_of_le hctle with h1 | h1
      · exact h1
      · exfalso
        apply hddne
        rw [h1]
        simp
    have htne : idxminClose rows start i ≠ start := by
      intro he
      rw [he] at hctlt
      exact lt_irrefl _ hctlt
    have htnei : idxminClose rows start i ≠ i := by
      intro he
      rw [he] at hctle
      linarith
    have htlt : idxminClose rows start i < i := by
      rcases lt_or_eq_of_le hb.2 with h1 | h1
      · exact h1
      · exact absurd h1 htnei
    have hstartlt : start < idxminClose rows start i := by
      rcases lt_or_eq_of_le hb.1 with h1 | h1
      · exact h1
      · exact absurd h1.symm htne
    exact ⟨⟨start, idxminClose rows start i, hstartlt, by omega,
      rfl, rfl, rfl, rfl, hmax, hctlt⟩, rfl,
      sorted_dateAt_lt rows hsort _ i htlt hin⟩

theorem ddInv_step (rows : List Row) (th : ℚ) (hsort : SortedDates rows)
    (hpos : ClosesPos rows) (hth : 0 < th) (i : ℕ) (hi1 : 1 ≤ i)
    (hin : i < rows.length) (s : DDState) (hInv : DDInv rows i s) :
    DDInv rows (i + 1) (ddStep rows th s i) := by
  have hpkl : s.peakIdx < i := hInv.peak_lt
  have hpklen : s.peakIdx < rows.length := by omega
  have hmaxstep : prefMax (rows.map Row.close) i
      = max (prefMax (rows.map Row.close) (i - 1)) (closeAt rows i) := by
    have h1 := prefMax_succ (rows.map Row.close) (i - 1)
      (by rw [List.length_map]; omega)
    rw [closes_getD] at h1
    have h2 : i - 1 + 1 = i := by omega
    rw [h2] at h1
    exact h1
  have hdates : dateAt rows s.peakIdx < dateAt rows i :=
    sorted_dateAt_lt rows hsort _ i hpkl hin
  simp only [ddStep]
  by_cases hbr : s.peakPrice < closeAt rows i
  · rw [if_pos hbr]
    cases hdd : s.inDD with
    | false =>
      rw [if_neg (by simp)]
      refine ⟨Nat.lt_succ_self i, rfl, ?_, fun h => absurd h (by simp),
        hInv.recs_wf, ?_, hInv.recs_chain⟩
      · show closeAt rows i = prefMax (rows.map Row.close) (i + 1 - 1)
        rw [Nat.add_sub_cancel, hmaxstep, ← hInv.peak_max]
        exact (max_eq_right (le_of_lt hbr)).symm
      · intro r hr
        exact lt_trans (hInv.recs_lt r hr) hdates
    | true =>
      rw [if_pos rfl, hInv.dd_start hdd]
      have hmaxpk : closeAt rows s.peakIdx
          = prefMax (rows.map Row.close) s.peakIdx := by
        have h1 : closeAt rows s.peakIdx ≤ prefMax (rows.map Row.close) s.peakIdx := by
          rw [← closes_getD]
          exact getD_le_prefMax _ _ (by rw [List.length_map]; omega)
        have h2 : prefMax (rows.map Row.close) s.peakIdx
            ≤ prefMax (rows.map Row.close) (i - 1) :=
          prefMax_le_prefMax _ (by omega) (by rw [List.length_map]; omega)
        have h3 : prefMax (rows.map Row.close) (i - 1) = closeAt rows s.peakIdx := by
          rw [← hInv.peak_max, hInv.peak_price]
        exact le_antisymm h1 (by rw [← h3]; exact h2)
      have hclose2 : closeAt rows s.peakIdx < closeAt rows i := by
        rw [← hInv.peak_price]
        exact hbr
      show DDInv rows (i + 1)
        ⟨i, closeAt rows i, false, some s.peakIdx,
          match calculate_drawdown_metrics rows s.peakIdx i th with
          | some m => s.recs ++ [m]
          | none => s.recs⟩
      cases hm : calculate_drawdown_metrics rows s.peakIdx i th with
      | none =>
        refine ⟨Nat.lt_succ_self i, rfl, ?_, fun h => absurd h (by simp),
          hInv.recs_wf, ?_, hInv.recs_chain⟩
        · show closeAt rows i = prefMax (rows.map Row.close) (i + 1 - 1)
          rw [Nat.add_sub_cancel, hmaxstep, ← hInv.peak_max]
          exact (max_eq_right (le_of_lt hbr)).symm
        · intro r hr
          exact lt_trans (hInv.recs_lt r hr) hdates
      | some m =>
        obtain ⟨hwf_m, hPDm, hTDm⟩ := calc_metrics_wf rows th hsort hpos hth
          s.peakIdx i hpkl hin hmaxpk hclose2 m hm
        refine ⟨Nat.lt_succ_self i, rfl, ?_, fun h => absurd h (by simp),
          ?_, ?_, ?_⟩
        · show closeAt rows i = prefMax (rows.map Row.close) (i + 1 - 1)
          rw [Nat.add_sub_cancel, hmaxstep, ← hInv.peak_max]
          exact (max_eq_right (le_of_lt hbr)).symm
        · intro r hr
          rcases List.mem_append.mp hr with h1 | h1
          · exact hInv.recs_wf r h1
          · rw [List.mem_singleton.mp h1]
            exact hwf_m
        · intro r hr
          rcases List.mem_append.mp hr with h1 | h1
          · exact lt_trans (hInv.recs_lt r h1) hdates
          · rw [List.mem_singleton.mp h1]
            exact hTDm
        · rw [List.chain'_append]
          refine ⟨hInv.recs_chain, by simp, ?_⟩
          intro x hx y hy
          have hxm : x ∈ s.recs := List.mem_of_getLast?_eq_some hx
          have hym : y = m := by
            have := hy
            simp at this
            exact this.symm
          rw [hym, hPDm]
          exact hInv.recs_lt x hxm
  · rw [if_neg hbr]
    by_cases henter : s.inDD = false ∧ closeAt rows i < s.peakPrice * (19 / 20)
    · rw [if_pos henter]
      refine ⟨Nat.lt_succ_of_lt hpkl, hInv.peak_price, ?_, fun _ => rfl,
        hInv.recs_wf, hInv.recs_lt, hInv.recs_chain⟩
      show s.peakPrice = prefMax (rows.map Row.close) (i + 1 - 1)
      rw [Nat.add_sub_cancel, hmaxstep, ← hInv.peak_max]
      exact (max_eq_left (le_of_not_lt hbr)).symm
    · rw [if_neg henter]
      refine ⟨Nat.lt_succ_of_lt hpkl, hInv.peak_price, ?_, hInv.dd_start,
        hInv.recs_wf, hInv.recs_lt, hInv.recs_chain⟩
      show s.peakPrice = prefMax (rows.map Row.close) (i + 1 - 1)
      rw [Nat.add_sub_cancel, hmaxstep, ← hInv.peak_max]
      exact (max_eq_left (le_of_not_lt hbr)).symm

theorem ddInv_scan (rows : List Row) (th : ℚ) (hsort : SortedDates rows)
    (hpos : ClosesPos rows) (hth : 0 < th) :
    ∀ (fuel i : ℕ) (s : DDState), 1 ≤ i → i + fuel ≤ rows.length →
      DDInv rows i s → DDInv rows (i + fuel) (ddScan rows th fuel i s) := by
  intro fuel
  induction fuel with
  | zero =>
    intro i s h1 h2 hInv
    simpa [ddScan] using hInv
  | succ fuel ih =>
    intro i s h1 h2 hInv
    have hin : i < rows.length := by omega
    have hstep := ddInv_step rows th hsort hpos hth i h1 hin s hInv
    have h := ih (i + 1) (ddStep rows th s i) (by omega) (by omega) hstep
    have heq : i + 1 + fuel = i + (fuel + 1) := by omega
    rw [heq] at h
    simpa [ddScan] using h

theorem ddInv_init (rows : List Row) (hne : rows ≠ []) : DDInv rows 1 (ddInit rows) := by
  refine ⟨Nat.zero_lt_one, rfl, ?_, ?_, by simp [ddInit], by simp [ddInit],
    by simp [ddInit]⟩
  · cases rows with
    | nil => exact absurd rfl hne
    | cons r rest => rfl
  · intro h
    exact absurd h (by simp [ddInit])

theorem ddInv_final (rows : List Row) (th : ℚ) (hsort : SortedDates rows)
    (hpos : ClosesPos rows) (hth : 0 < th) (hne : rows ≠ []) :
    DDInv rows rows.length (ddFinal rows th) := by
  have h0 : 0 < rows.length := List.length_pos.mpr hne
  have h := ddInv_scan rows th hsort hpos hth (rows.length - 1) 1 (ddInit rows)
    (le_refl 1) (by omega) (ddInv_init rows hne)
  have heq : 1 + (rows.length - 1) = rows.length := by omega
  rw [heq] at h
  exact h

theorem find_eq_ok_recs (df : Frame) (hD : df.hasDate = true) (hC : df.hasClose = true)
    (th : ℚ) (hth : 0 < th) :
    find_major_drawdowns df th = .ok (ddFinal df.rows th).recs := by
  unfold find_major_drawdowns
  rw [if_neg (by simp [hD, hC]), if_neg (not_le.mpr hth)]
  by_cases he : df.rows.isEmpty
  · rw [if_pos he]
    have hrows : df.rows = [] := List.isEmpty_iff.mp he
    rw [hrows]
    rfl
  · rw [if_neg he]

theorem chain_episode_strengthen (l : List Episode)
    (hch : l.Chain' fun a b => a.Trough_Date < b.Peak_Date)
    (hwf : ∀ r ∈ l, r.Peak_Date < r.Trough_Date) :
    l.Chain' fun a b => a.Peak_Date < b.Peak_Date ∧ a.Trough_Date < b.Trough_Date ∧
      a.Trough_Date < b.Peak_Date := by
  induction l with
  | nil => simp
  | cons a l ih =>
    cases l with
    | nil => simp
    | cons b l2 =>
      rw [List.chain'_cons] at hch ⊢
      have ha := hwf a (by simp)
      have hb := hwf b (by simp)
      have h1 := hch.1
      refine ⟨⟨by omega, by omega, hch.1⟩, ?_⟩
      exact ih hch.2 fun r hr => hwf r (List.mem_cons_of_mem _ hr)

/-- C3: whenever the detector's scan ends still in a drawdown, the open decline
contributed no episode: every emitted episode has a peak date strictly before
the open decline's peak date, whatever the decline's magnitude. -/
theorem find_major_drawdowns_open_decline (df : Frame) (th : ℚ)
    (hsort : SortedDates df.rows) (hpos : ClosesPos df.rows)
    (hD : df.hasDate = true) (hC : df.hasClose = true) (hth : 0 < th)
    (hdd : (ddFinal df.rows th).inDD = true) :
    find_major_drawdowns df th = .ok (ddFinal df.rows th).recs ∧
    ∃ j, (ddFinal df.rows th).ddStart = some j ∧ j < df.rows.length ∧
      ∀ r ∈ (ddFinal df.rows th).recs, r.Peak_Date < dateAt df.rows j := by
  refine ⟨find_eq_ok_recs df hD hC th hth, ?_⟩
  by_cases hne : df.rows = []
  · exfalso
    rw [hne] at hdd
    simp [ddFinal, ddScan, ddInit] at hdd
  · have hInv := ddInv_final df.rows th hsort hpos hth hne
    refine ⟨(ddFinal df.rows th).peakIdx, hInv.dd_start hdd, hInv.peak_lt, ?_⟩
    intro r hr
    have h1 := hInv.recs_lt r hr
    obtain ⟨jp, jt, hjpjt, hjt, hPD, hTD, _, _, _, _⟩ := hInv.recs_wf r hr
    have h2 : r.Peak_Date < r.Trough_Date := by
      rw [hPD, hTD]
      exact sorted_dateAt_lt df.rows hsort jp jt hjpjt hjt
    omega

/-- Evaluation of the detector's final state on the two-row declining series:
the scan ends in a drawdown that started at the peak of index 0. -/
theorem openDecline_final :
    ddFinal rowsOpenDecline 20 =
      { peakIdx := 0, peakPrice := 100, inDD := true, ddStart := some 0, recs := [] } := by
  norm_num [ddFinal, ddScan, ddStep, ddInit, closeAt, rowsOpenDecline]

/-- Witness for C3 on the two-row series that ends mid-decline. -/
theorem find_major_drawdowns_open_decline_witness :
    find_major_drawdowns ⟨true, true, rowsOpenDecline⟩ 20
        = .ok (ddFinal rowsOpenDecline 20).recs ∧
    ∃ j, (ddFinal rowsOpenDecline 20).ddStart = some j ∧ j < rowsOpenDecline.length ∧
      ∀ r ∈ (ddFinal rowsOpenDecline 20).recs, r.Peak_Date < dateAt rowsOpenDecline j :=
  find_major_drawdowns_open_decline ⟨true, true, rowsOpenDecline⟩ 20
    (by decide) (by decide) rfl rfl (by decide) (by rw [openDecline_final])

/-- C9: every emitted episode's peak price is the closing price at its peak
index and is the maximum closing price over all rows up to and including that
index; consequently the trough price never exceeds the peak price. -/
theorem find_major_drawdowns_peak_is_high (df : Frame) (th : ℚ)
    (hsort : SortedDates df.rows) (hpos : ClosesPos df.rows)
    (hD : df.hasDate = true) (hC : df.hasClose = true) (hth : 0 < th) :
    find_major_drawdowns df th = .ok (ddFinal df.rows th).recs ∧
    ∀ r ∈ (ddFinal df.rows th).recs, ∃ j, j < df.rows.length ∧
      r.Peak_Date = dateAt df.rows j ∧ r.Peak_Price = closeAt df.rows j ∧
      r.Peak_Price = prefMax (df.rows.map Row.close) j ∧
      r.Trough_Price ≤ r.Peak_Price := by
  refine ⟨find_eq_ok_recs df hD hC th hth, ?_⟩
  by_cases hne : df.rows = []
  · intro r hr
    rw [hne] at hr
    simp [ddFinal, ddScan, ddInit] at hr
  · intro r hr
    obtain ⟨jp, jt, hjpjt, hjt, hPD, hTD, hPP, hTP, hPM, hTlt⟩ :=
      (ddInv_final df.rows th hsort hpos hth hne).recs_wf r hr
    exact ⟨jp, by omega, hPD, hPP, hPM, le_of_lt hTlt⟩

/-- Witness for C9 on Scenario B's series. -/
theorem find_major_drawdowns_peak_is_high_witness :
    find_major_drawdowns ⟨true, true, rowsB⟩ 20 = .ok (ddFinal rowsB 20).recs ∧
    ∀ r ∈ (ddFinal rowsB 20).recs, ∃ j, j < rowsB.length ∧
      r.Peak_Date = dateAt rowsB j ∧ r.Peak_Price = closeAt rowsB j ∧
      r.Peak_Price = prefMax (rowsB.map Row.close) j ∧
      r.Trough_Price ≤ r.Peak_Price :=
  find_major_drawdowns_peak_is_high ⟨true, true, rowsB⟩ 20
    (by decide) (by decide) rfl rfl (by decide)

/-- C10 (amended): the emitted episodes are chronological and pairwise
disjoint: along the list, peak dates strictly increase, trough dates strictly
increase, and each episode's trough date is strictly before the next
episode's peak date. -/
theorem find_major_drawdowns_chronological (df : Frame) (th : ℚ)
    (hsort : SortedDates df.rows) (hpos : ClosesPos df.rows)
    (hD : df.hasDate = true) (hC : df.hasClose = true) (hth : 0 < th) :
    find_major_drawdowns df th = .ok (ddFinal df.rows th).recs ∧
    (ddFinal df.rows th).recs.Chain' fun a b =>
      a.Peak_Date < b.Peak_Date ∧ a.Trough_Date < b.Trough_Date ∧
      a.Trough_Date < b.Peak_Date := by
  refine ⟨find_eq_ok_recs df hD hC th hth, ?_⟩
  by_cases hne : df.rows = []
  · rw [hne]
    simp [ddFinal, ddScan, ddInit]
  · have hInv := ddInv_final df.rows th hsort hpos hth hne
    apply chain_episode_strengthen _ hInv.recs_chain
    intro r hr
    obtain ⟨jp, jt, hjpjt, hjt, hPD, hTD, _, _, _, _⟩ := hInv.recs_wf r hr
    rw [hPD, hTD]
    exact sorted_dateAt_lt df.rows hsort jp jt hjpjt hjt

/-- Witness for the amended C10 on the back-to-back series. -/
theorem find_major_drawdowns_chronological_witness :
    find_major_drawdowns ⟨true, true, rowsBackToBack⟩ 20
        = .ok (ddFinal rowsBackToBack 20).recs ∧
    (ddFinal rowsBackToBack 20).recs.Chain' fun a b =>
      a.Peak_Date < b.Peak_Date ∧ a.Trough_Date < b.Trough_Date ∧
      a.Trough_Date < b.Peak_Date :=
  find_major_drawdowns_chronological ⟨true, true, rowsBackToBack⟩ 20
    (by decide) (by decide) rfl rfl (by decide)

/-- Counterexample to C10 as stated: on the back-to-back series the second
episode's peak sits exactly at index 2, the first index whose price exceeds
the first episode's peak price (the index that closed the first episode), so
the later peak index is not strictly greater than the earlier close index. -/
theorem find_major_drawdowns_peak_gap_counterexample :
    find_major_drawdowns ⟨true, true, rowsBackToBack⟩ 20 =
      .ok [⟨0, 1, 100, 70, -30, 1⟩, ⟨2, 3, 101, 60, -4100/101, 1⟩] ∧
    (⟨0, 1, 100, 70, -30, 1⟩ : Episode).Peak_Price < closeAt rowsBackToBack 2 ∧
    (∀ k, k < 2 →
      ¬ ((⟨0, 1, 100, 70, -30, 1⟩ : Episode).Peak_Price < closeAt rowsBackToBack k)) ∧
    (⟨2, 3, 101, 60, -4100/101, 1⟩ : Episode).Peak_Date = dateAt rowsBackToBack 2 ∧
    ¬ (dateAt rowsBackToBack 2 < (⟨2, 3, 101, 60, -4100/101, 1⟩ : Episode).Peak_Date) := by
  refine ⟨?_, by decide, by decide, by decide, by decide⟩
  norm_num [find_major_drawdowns, ddFinal, ddScan, ddStep, ddInit,
    calculate_drawdown_metrics, idxminClose, closeAt, dateAt, rowsBackToBack, List.range']
  rw [abs_of_nonneg (by norm_num : (0 : ℚ) ≤ 4100 / 101)]
  norm_num

theorem cumprod_ratio : ∀ (xs : List ℚ) (p k : ℚ), p ≠ 0 → (∀ y ∈ xs, y ≠ 0) →
    cumprod (p / k) (List.zipWith (fun prev cur => cur / prev) (p :: xs) xs)
      = xs.map (· / k) := by
  intro xs
  induction xs with
  | nil =>
    intro p k hp hxs
    rfl
  | cons y ys ih =>
    intro p k hp hxs
    have hy : y ≠ 0 := hxs y (by simp)
    have hys : ∀ z ∈ ys, z ≠ 0 := fun z hz => hxs z (List.mem_cons_of_mem _ hz)
    show (p / k * (y / p)) :: cumprod (p / k * (y / p))
        (List.zipWith (fun prev cur => cur / prev) (y :: ys) ys) = (y / k) :: ys.map (· / k)
    have hcancel : p / k * (y / p) = y / k := by
      rcases eq_or_ne k 0 with rfl | hk
      · simp
      · field_simp
        ring
    rw [hcancel, ih y k hy hys]

theorem qs_to_prices_pct (x : ℚ) (xs : List ℚ) (hx : x ≠ 0) (hxs : ∀ y ∈ xs, y ≠ 0) :
    qs_to_prices (pct_change (x :: xs)) = (x :: xs).map (· / x) := by
  have hmap : (pct_change (x :: xs)).map (fun o => 1 + o.getD 0)
      = 1 :: List.zipWith (fun prev cur => cur / prev) (x :: xs) xs := by
    show (1 + (0:ℚ)) :: (List.zipWith (fun prev cur =>
        some (cur / prev - 1)) (x :: xs) xs).map (fun o => 1 + o.getD 0)
      = 1 :: List.zipWith (fun prev cur => cur / prev) (x :: xs) xs
    rw [List.map_zipWith]
    norm_num
  have h2 := cumprod_ratio xs x x hx hxs
  rw [div_self hx] at h2
  unfold qs_to_prices
  rw [hmap]
  show (1 * 1 : ℚ) :: cumprod (1 * 1)
      (List.zipWith (fun prev cur => cur / prev) (x :: xs) xs) = (x :: xs).map (· / x)
  rw [one_mul, h2]
  simp [div_self hx]

theorem scanMax_div (k : ℚ) (hk : 0 ≤ k) : ∀ (xs : List ℚ) (a : ℚ),
    scanMax (a / k) (xs.map (· / k)) = (scanMax a xs).map (· / k) := by
  intro xs
  induction xs with
  | nil => intro a; rfl
  | cons y ys ih =>
    intro a
    show (max (a / k) (y / k)) :: scanMax (max (a / k) (y / k)) (ys.map (· / k))
        = (max a y / k) :: (scanMax (max a y) ys).map (· / k)
    rw [max_div_div_right hk, ih (max a y)]

theorem runningMax_div (k : ℚ) (hk : 0 ≤ k) (c : List ℚ) :
    runningMaxList (c.map (· / k)) = (runningMaxList c).map (· / k) := by
  cases c with
  | nil => rfl
  | cons x xs =>
    show (x / k) :: scanMax (x / k) (xs.map (· / k))
        = (x :: scanMax x xs).map (· / k)
    rw [scanMax_div k hk xs x]
    rfl

theorem zip_div_scale (k : ℚ) (hk : k ≠ 0) : ∀ (c m : List ℚ),
    List.zipWith (fun p q => p / q) (c.map (· / k)) (m.map (· / k))
      = List.zipWith (fun p q => p / q) c m := by
  intro c
  induction c with
  | nil => intro m; rfl
  | cons a c' ih =>
    intro m
    cases m with
    | nil => rfl
    | cons b m' =>
      show ((a / k) / (b / k)) :: _ = (a / b) :: _
      rw [ih m']
      congr 1
      rcases eq_or_ne b 0 with rfl | hb
      · simp
      · field_simp

theorem foldl_min_map (f : ℚ → ℚ) (hf : ∀ a b : ℚ, f (min a b) = min (f a) (f b)) :
    ∀ (xs : List ℚ) (a : ℚ), (xs.map f).foldl min (f a) = f (xs.foldl min a) := by
  intro xs
  induction xs with
  | nil => intro a; rfl
  | cons y ys ih =>
    intro a
    show (ys.map f).foldl min (min (f a) (f y)) = f (ys.foldl min (min a y))
    rw [← hf a y, ih (min a y)]

theorem min?_map_mono (f : ℚ → ℚ) (hf : ∀ a b : ℚ, f (min a b) = min (f a) (f b))
    (l : List ℚ) : (l.map f).min? = l.min?.map f := by
  cases l with
  | nil => rfl
  | cons x xs =>
    rw [List.map_cons, List.min?_cons', List.min?_cons']
    rw [foldl_min_map f hf xs x]
    rfl

theorem min_sub_one (a b : ℚ) : min a b - 1 = min (a - 1) (b - 1) := by
  rcases le_total a b with h | h
  · rw [min_eq_left h, min_eq_left (by linarith)]
  · rw [min_eq_right h, min_eq_right (by linarith)]

theorem min_mul_hundred (a b : ℚ) : min a b * 100 = min (a * 100) (b * 100) := by
  rcases le_total a b with h | h
  · rw [min_eq_left h, min_eq_left (by linarith)]
  · rw [min_eq_right h, min_eq_right (by linarith)]

/-- C5 (amended): for a price series of length at least 2 with positive closes
whose return series is recognized as returns by quantstats (some return is
negative, or all returns are below 1), the `max_drawdown` of
`calculate_risk_metrics` equals the minimum of the Drawdown Series divided by
100: a fraction, not the percent-scaled minimum of the Drawdown column. -/
theorem risk_metrics_max_drawdown_amended (rows : List Row) (hlen2 : 2 ≤ rows.length)
    (hpos : ClosesPos rows) (mn mx : ℚ)
    (hmn : ((pct_change (rows.map Row.close)).filterMap id).min? = some mn)
    (hmx : ((pct_change (rows.map Row.close)).filterMap id).max? = some mx)
    (hrec : mn < 0 ∨ mx < 1) :
    ∃ v,
      risk_metrics_max_drawdown true true true (pct_change (rows.map Row.close))
        = .ok (some v) ∧
      calculate_drawdown ⟨true, true, rows⟩
        = .ok ((to_drawdown_series (rows.map Row.close)).map (· * 100),
            runningMaxList (rows.map Row.close),
            runningMinList ((to_drawdown_series (rows.map Row.close)).map (· * 100))) ∧
      ((to_drawdown_series (rows.map Row.close)).map (· * 100)).min?
        = some (v * 100) := by
  have hclen : (rows.map Row.close).length = rows.length := List.length_map _ _
  obtain ⟨x, xs, hc⟩ : ∃ x xs, rows.map Row.close = x :: xs := by
    cases hcc : rows.map Row.close with
    | nil =>
      exfalso
      have h0 : (rows.map Row.close).length = 0 := by rw [hcc]; rfl
      rw [hclen] at h0
      omega
    | cons a l => exact ⟨a, l, rfl⟩
  have hposc : ∀ y ∈ rows.map Row.close, 0 < y := by
    intro y hy
    obtain ⟨r, hr, rfl⟩ := List.mem_map.mp hy
    exact hpos r hr
  have hx0 : 0 < x := hposc x (by rw [hc]; simp)
  have hxs0 : ∀ y ∈ xs, y ≠ 0 := by
    intro y hy
    exact ne_of_gt (hposc y (by rw [hc]; simp [hy]))
  have hret : qs_isReturns (pct_change (rows.map Row.close)) = true := by
    unfold qs_isReturns
    rw [hmn, hmx]
    exact decide_eq_true hrec
  have hP : qs_to_prices (pct_change (rows.map Row.close))
      = (rows.map Row.close).map (· / x) := by
    rw [hc]
    exact qs_to_prices_pct x xs (ne_of_gt hx0) hxs0
  have hzip : List.zipWith (fun p m => p / m)
      (qs_to_prices (pct_change (rows.map Row.close)))
      (runningMaxList (qs_to_prices (pct_change (rows.map Row.close))))
      = List.zipWith (fun p m => p / m) (rows.map Row.close)
          (runningMaxList (rows.map Row.close)) := by
    rw [hP, runningMax_div x (le_of_lt hx0), zip_div_scale x (ne_of_gt hx0)]
  obtain ⟨r0, hr0⟩ : ∃ r0, (List.zipWith (fun p m => p / m) (rows.map Row.close)
      (runningMaxList (rows.map Row.close))).min? = some r0 := by
    cases hmm : (List.zipWith (fun p m => p / m) (rows.map Row.close)
        (runningMaxList (rows.map Row.close))).min? with
    | none =>
      rw [List.min?_eq_none_iff] at hmm
      have := congrArg List.length hmm
      rw [List.length_zipWith, runningMax_length, min_self, hclen] at this
      simp only [List.length_nil] at this
      omega
    | some r0 => exact ⟨r0, rfl⟩
  have hdd1 : to_drawdown_series (rows.map Row.close)
      = (List.zipWith (fun p m => p / m) (rows.map Row.close)
          (runningMaxList (rows.map Row.close))).map (· - 1) := by
    unfold to_drawdown_series
    rw [List.map_zipWith]
  refine ⟨r0 - 1, ?_, by simp [calculate_drawdown], ?_⟩
  · unfold risk_metrics_max_drawdown
    rw [if_neg (by simp)]
    congr 1
    unfold qs_max_drawdown
    rw [if_pos hret]
    simp only [hzip, hr0]
    rfl
  · rw [min?_map_mono _ min_mul_hundred, hdd1, min?_map_mono _ min_sub_one, hr0]
    rfl

/-- Counterexample to C5 as stated: on the halving series 100, 50, the code's
`max_drawdown` is the fraction -1/2 while the minimum of the Drawdown Series
column is the percentage -50; the two are not equal. -/
theorem risk_metrics_max_drawdown_counterexample :
    risk_metrics_max_drawdown true true true (pct_change (rowsHalf.map Row.close))
        = .ok (some (-1/2)) ∧
    calculate_drawdown ⟨true, true, rowsHalf⟩
        = .ok ([0, -50], [100, 100], [0, -50]) ∧
    ([0, -50] : List ℚ).min? = some (-50) ∧
    ((-1 : ℚ)/2) ≠ -50 := by
  refine ⟨?_, ?_, by norm_num [List.min?], by norm_num⟩
  · norm_num [risk_metrics_max_drawdown, qs_max_drawdown, qs_isReturns, pct_change,
      qs_to_prices, cumprod, runningMaxList, scanMax, List.filterMap, List.min?,
      List.max?, rowsHalf]
  · norm_num [calculate_drawdown, to_drawdown_series, runningMaxList, runningMinList,
      scanMax, scanMin, rowsHalf]

/-- Witness for the amended C5 on the halving series. -/
theorem risk_metrics_max_drawdown_amended_witness :
    ∃ v,
      risk_metrics_max_drawdown true true true (pct_change (rowsHalf.map Row.close))
        = .ok (some v) ∧
      calculate_drawdown ⟨true, true, rowsHalf⟩
        = .ok ((to_drawdown_series (rowsHalf.map Row.close)).map (· * 100),
            runningMaxList (rowsHalf.map Row.close),
            runningMinList ((to_drawdown_series (rowsHalf.map Row.close)).map (· * 100))) ∧
      ((to_drawdown_series (rowsHalf.map Row.close)).map (· * 100)).min?
        = some (v * 100) :=
  risk_metrics_max_drawdown_amended rowsHalf (by decide) (by decide) (-1/2) (-1/2)
    (by simp [pct_change, rowsHalf, List.filterMap, List.min?]; norm_num)
    (by simp [pct_change, rowsHalf, List.filterMap, List.max?]; norm_num)
    (by norm_num)
